import Mathlib

/-
Verification of the Stock-Analyst analyst engine
(`src/analyst/{coverage,quality,valuation,market,rating,analyst_engine}.py`).

Shallow embedding conventions:
- A pandas value that may be NaN is `Val := Option ℚ` with `none` playing
  the role of NaN / missing.  Float arithmetic is idealised as exact
  rational arithmetic; comparisons against NaN are `false`, as in Python.
- A pandas Series is `Series := List Val`, ordered oldest first, so that
  `iloc[-1]` is the last element.
- A DataFrame column that may be missing from the table is
  `Option Series` (`df.get(name)` returning `None` is `none`).
- Operations that can raise `IndexError` / `ZeroDivisionError` on Python
  floats live in `Except Unit`; `.error ()` models a raised exception.
- The irrational real functions entering the code (`std`, `sqrt(252)`,
  `(end/start) ** (1/periods)`) only ever influence values that the
  verified properties do not depend on, so the whole development is
  parametric in a root-taking function `rootQ n x` standing for the real
  `x ** (1/n)` (with `rootQ 2` the square root used by `std`).
-/

namespace StockAnalyst

/-- A float value that may be NaN/missing: `none` is NaN. -/
abbrev Val := Option ℚ

/-- A pandas Series, ordered oldest first. -/
abbrev Series := List Val

/-- `series.dropna()`. -/
def dropna (s : Series) : List ℚ := s.filterMap id

/-- `series.tail(n)`: the last `n` elements (all of them when `n` exceeds the length). -/
def tailN (n : ℕ) (l : List ℚ) : List ℚ := l.drop (l.length - n)

/-- Mean of a list of rationals (callers guard against the empty list, where
pandas would yield NaN). -/
def meanL (l : List ℚ) : ℚ := l.sum / l.length

/-- `np.mean` as a NaN-aware operation: NaN on the empty list. -/
def meanQ (l : List ℚ) : Val := if l.isEmpty then none else some (meanL l)

/-- `np.clip(x, lo, hi)` for `lo ≤ hi`. -/
def clip (x lo hi : ℚ) : ℚ := max lo (min hi x)

/-- Python `v > q` where `v` may be NaN (NaN comparisons are false). -/
def gtV (v : Val) (q : ℚ) : Bool :=
  match v with
  | none => false
  | some x => decide (q < x)

/-- Python `v < q` where `v` may be NaN. -/
def ltV (v : Val) (q : ℚ) : Bool :=
  match v with
  | none => false
  | some x => decide (x < q)

/-- Python `v <= q` where `v` may be NaN. -/
def leV (v : Val) (q : ℚ) : Bool :=
  match v with
  | none => false
  | some x => decide (x ≤ q)

/-- NaN-propagating division; a zero denominator yields a non-finite float,
which the code always routes through `isfinite` checks, so it is modelled
as NaN. -/
def divV (a b : Val) : Val :=
  match a, b with
  | some x, some y => if y = 0 then none else some (x / y)
  | _, _ => none

-- ======================================================================
-- src/analyst/coverage.py
-- ======================================================================

/-- `coverage.MetricResult`. -/
structure MetricResult where
  value : Val
  years_used : ℕ
  years_required : ℕ
  confidence : ℚ
deriving DecidableEq, Repr

/-- `coverage.compute_with_fallback(series, preferred_years, minimum_years, reducer)`.
The reducer returns a `Val` because `np.mean` of an empty slice is NaN. -/
def compute_with_fallback (series : Option Series) (preferred_years minimum_years : ℕ)
    (reducer : List ℚ → Val) : MetricResult :=
  match series with
  | none => ⟨none, 0, preferred_years, 0⟩
  | some s =>
    let clean := dropna s
    if clean.length < minimum_years then
      ⟨none, clean.length, preferred_years, 0⟩
    else
      let used := min clean.length preferred_years
      ⟨reducer (tailN used clean), used, preferred_years, (used : ℚ) / preferred_years⟩

/-- Count of non-missing points of a series. -/
def cleanCount (s : Series) : ℕ := (dropna s).length

-- ======================================================================
-- The feature table
-- ======================================================================

/-- The feature table consumed by the analyst engine: each column may be
missing from the table (`none`).  `current_ratio_s` and `quick_ratio_s`
model the source columns named current-ratio and quick-ratio. -/
structure Table where
  total_revenue : Option Series := none
  net_income : Option Series := none
  free_cash_flow : Option Series := none
  operating_margin : Option Series := none
  net_margin : Option Series := none
  debt_to_equity : Option Series := none
  debt_to_assets : Option Series := none
  current_ratio_s : Option Series := none
  quick_ratio_s : Option Series := none
  revenue_cagr_3y : Option Series := none
  fcf_cagr_3y : Option Series := none
  net_debt : Option Series := none
  ordinary_shares_number : Option Series := none
  close : Option Series := none
  adj_close : Option Series := none
  price : Option Series := none
deriving DecidableEq, Repr

/-- Count of non-missing points of a possibly-missing column. -/
def cleanCountC (c : Option Series) : ℕ := cleanCount (c.getD [])

/-- Last non-missing value of a possibly-missing column (the
`clean = col.dropna(); clean.iloc[-1]` pattern, guarded by `not clean.empty`):
`none` when the column is missing or has no non-missing value. -/
def latestClean (c : Option Series) : Val :=
  match c with
  | none => none
  | some s => (dropna s).getLast?

-- ======================================================================
-- src/analyst/quality.py
-- ======================================================================

/-- `QualityAnalyzer._score_range(value, low, high)`:
NaN maps to NaN, otherwise `clip(100 * (value - low) / (high - low), 0, 100)`. -/
def scoreRange (v : Val) (lo hi : ℚ) : Val :=
  v.map (fun x => clip (100 * (x - lo) / (hi - lo)) 0 100)

/-- `QualityAnalyzer._mean_ignore_nan`. -/
def meanIgnoreNan (l : List Val) : Val := meanQ (l.filterMap id)

/-- `QualityAnalyzer._confidence(years_used, years_required)`. -/
def confQ (years_used years_required : ℕ) : ℚ :=
  if years_required = 0 then 0 else min 1 ((years_used : ℚ) / years_required)

/-- Sample variance with pandas default `ddof = 1` (meaningful for lists of
length at least 2; all call sites guard the length). -/
def sampleVar (l : List ℚ) : ℚ :=
  (l.map (fun x => (x - meanL l) ^ 2)).sum / ((l.length : ℚ) - 1)

/-- `QualityAnalyzer._safe_cagr_endpoints(series, periods)`.  The argument is
the already-dropna-ed series (the source re-drops it, which is idempotent);
`rootQ periods x` stands for the real `x ** (1 / periods)`. -/
def safeCagrEndpoints (rootQ : ℕ → ℚ → ℚ) (s : List ℚ) (p : ℕ) : Val :=
  if s.length < p + 1 then none
  else
    match (tailN (p + 1) s).head?, s.getLast? with
    | some a, some b => if a ≤ 0 ∨ b ≤ 0 then none else some (rootQ p (b / a) - 1)
    | _, _ => none

/-- One margin column inside `QualityAnalyzer._profitability`: requires at
least 3 non-missing values, scores the mean of the trailing 5, and reports
how many trailing values were used. -/
def marginBranch (c : Option Series) (lo hi : ℚ) : List Val × ℕ :=
  match c with
  | none => ([], 0)
  | some s =>
    let clean := dropna s
    if 3 ≤ clean.length then
      ([scoreRange (some (meanL (tailN 5 clean))) lo hi], (tailN 5 clean).length)
    else ([], 0)

/-- `QualityAnalyzer._profitability`: (score, confidence). -/
def profitability (df : Table) : Val × ℚ :=
  let a := marginBranch df.operating_margin (5/100) (30/100)
  let b := marginBranch df.net_margin (3/100) (20/100)
  (meanIgnoreNan (a.1 ++ b.1), confQ (max a.2 b.2) 5)

/-- `QualityAnalyzer._growth_quality`: (score, confidence).  The third
components of the branch results carry the `revenue_growth` and
`fcf_growth` metric entries needed by the penalty rule (`none` when the
metric key is not in the dict, `some g` with `g` possibly NaN when it is). -/
def growthQuality (rootQ : ℕ → ℚ → ℚ) (df : Table) : Val × ℚ :=
  let revClean := (df.total_revenue.map dropna).getD []
  let fcfClean := (df.free_cash_flow.map dropna).getD []
  let niClean := (df.net_income.map dropna).getD []
  let revB : List Val × (ℕ × Option Val) :=
    if 3 ≤ revClean.length then
      let g := safeCagrEndpoints rootQ revClean 2
      ([scoreRange g 0 (15/100)], ((tailN 5 revClean).length, some g))
    else ([], (0, none))
  let baseB : List Val × (ℕ × Option Val) :=
    if 3 ≤ fcfClean.length then
      let g := safeCagrEndpoints rootQ fcfClean 2
      ([scoreRange g 0 (15/100)], ((tailN 5 fcfClean).length, some g))
    else if 3 ≤ niClean.length then
      let g := safeCagrEndpoints rootQ niClean 2
      ([scoreRange g 0 (15/100)], ((tailN 5 niClean).length, none))
    else ([], (0, none))
  let penalty : List Val :=
    match baseB.2.2, revB.2.2 with
    | some gf, some gr => if gtV gr (5/100) && ltV gf (2/100) then [some 20] else []
    | _, _ => []
  (meanIgnoreNan (revB.1 ++ baseB.1 ++ penalty), confQ (max revB.2.1 baseB.2.1) 5)

/-- `QualityAnalyzer._financial_strength`: (score, confidence).
Debt-to-assets is consulted only when debt-to-equity contributed nothing;
each leverage / liquidity signal uses the latest non-missing value only,
and `years_used` is 1 as soon as any signal contributed. -/
def financialStrength (df : Table) : Val × ℚ :=
  let lev : List Val :=
    match latestClean df.debt_to_equity with
    | some v => [scoreRange (some (-v)) (-(5/2)) 0]
    | none =>
      match latestClean df.debt_to_assets with
      | some v => [scoreRange (some (-v)) (-1) 0]
      | none => []
  let crL : List Val :=
    match latestClean df.current_ratio_s with
    | some v => [scoreRange (some v) 1 3]
    | none => []
  let qrL : List Val :=
    match latestClean df.quick_ratio_s with
    | some v => [scoreRange (some v) (7/10) 2]
    | none => []
  let scores := lev ++ crL ++ qrL
  (meanIgnoreNan scores, confQ (if scores.isEmpty then 0 else 1) 3)

/-- One input of `QualityAnalyzer._stability`: requires at least 3
non-missing values; the volatility of the trailing 5 is the sample standard
deviation, divided by `abs(mean) + 1e-6` when `den` is set. -/
def stabBranch (rootQ : ℕ → ℚ → ℚ) (den : Bool) (c : Option Series) (lo : ℚ) : List Val × ℕ :=
  let cl := (c.map dropna).getD []
  if 3 ≤ cl.length then
    let clean := tailN 5 cl
    let sd := rootQ 2 (sampleVar clean)
    let vol := if den then sd / (|meanL clean| + 1/1000000) else sd
    ([scoreRange (some (-vol)) lo 0], clean.length)
  else ([], 0)

/-- `QualityAnalyzer._stability`: (score, confidence). -/
def stability (rootQ : ℕ → ℚ → ℚ) (df : Table) : Val × ℚ :=
  let a := stabBranch rootQ true df.net_income (-1)
  let b := stabBranch rootQ true df.free_cash_flow (-1)
  let c := stabBranch rootQ false df.operating_margin (-(15/100))
  (meanIgnoreNan (a.1 ++ b.1 ++ c.1), confQ (max (max a.2 b.2) c.2) 5)

/-- Output dictionary of `QualityAnalyzer.analyze` (the nested metric-detail
maps are internal to the dimensions and not part of any verified property). -/
structure QResult where
  quality_score : Val
  quality_confidence : Val
  profitability_score : Val
  profitability_confidence : ℚ
  growth_quality_score : Val
  growth_confidence : ℚ
  financial_strength_score : Val
  financial_strength_confidence : ℚ
  stability_score : Val
  stability_confidence : ℚ
deriving DecidableEq, Repr

/-- The four dimension scores, in source order. -/
def dimScores (rootQ : ℕ → ℚ → ℚ) (df : Table) : List Val :=
  [(profitability df).1, (growthQuality rootQ df).1, (financialStrength df).1,
   (stability rootQ df).1]

/-- The four dimension confidences, in source order. -/
def dimConfs (rootQ : ℕ → ℚ → ℚ) (df : Table) : List ℚ :=
  [(profitability df).2, (growthQuality rootQ df).2, (financialStrength df).2,
   (stability rootQ df).2]

/-- `QualityAnalyzer.analyze`. -/
def qualityAnalyze (rootQ : ℕ → ℚ → ℚ) (df : Table) : QResult :=
  let valid := (dimScores rootQ df).filterMap id
  ⟨if 2 ≤ valid.length then some (meanL valid) else none,
   if 2 ≤ valid.length then meanQ ((dimConfs rootQ df).filter (fun c => 0 < c)) else some 0,
   (profitability df).1, (profitability df).2,
   (growthQuality rootQ df).1, (growthQuality rootQ df).2,
   (financialStrength df).1, (financialStrength df).2,
   (stability rootQ df).1, (stability rootQ df).2⟩

/-- Python bankers rounding to the nearest integer. -/
def roundHalfEven (q : ℚ) : ℤ :=
  if q - ⌊q⌋ < 1/2 then ⌊q⌋
  else if 1/2 < q - ⌊q⌋ then ⌊q⌋ + 1
  else if ⌊q⌋ % 2 = 0 then ⌊q⌋ else ⌊q⌋ + 1

/-- Python `round(x, 1)`. -/
def round1 (q : ℚ) : ℚ := (roundHalfEven (q * 10) : ℚ) / 10

/-- Python `round(x, 2)`. -/
def round2 (q : ℚ) : ℚ := (roundHalfEven (q * 100) : ℚ) / 100

-- ======================================================================
-- src/analyst/valuation.py
-- ======================================================================

/-- `series.iloc[-1]` on a raw (non-dropna-ed) series: raises IndexError
on an empty series, otherwise the last element (possibly NaN). -/
def ilocLastE (s : Series) : Except Unit Val :=
  match s.getLast? with
  | none => .error ()
  | some v => .ok v

/-- `series.iloc[0]` on a raw series: raises IndexError on empty. -/
def ilocHeadE (s : Series) : Except Unit Val :=
  match s.head? with
  | none => .error ()
  | some v => .ok v

/-- `col.iloc[-1]` evaluated only when the column is present: returns
`none` when the column is missing, `some v` (with `v` the possibly-NaN
last raw value) when present; raises when present but empty. -/
def lastIfPresent (c : Option Series) : Except Unit (Option Val) :=
  match c with
  | none => .ok none
  | some s => (ilocLastE s).map some

/-- `ValuationEngine._equity_value_from_enterprise`: subtract the latest
net debt when available (`ValuationEngine._latest_value` is `latestClean`). -/
def equityFromEnterprise (ev : Val) (df : Table) : Val :=
  match ev with
  | none => none
  | some e =>
    match latestClean df.net_debt with
    | some nd => some (e - nd)
    | none => some e

/-- `ValuationEngine._to_per_share`: NaN when the total or the latest
shares-outstanding value is invalid or shares ≤ 0. -/
def toPerShare (total : Val) (df : Table) : Val :=
  match total, latestClean df.ordinary_shares_number with
  | some t, some sh => if sh ≤ 0 then none else some (t / sh)
  | _, _ => none

/-- `ValuationEngine._safe_score(values)`: NaN and confidence 0 when no
value is valid, else the mean of the valid values and `valid / total`. -/
def safeScore (values : List Val) : Val × ℚ :=
  let valid := values.filterMap id
  if valid.isEmpty then (none, 0)
  else (some (meanL valid), (valid.length : ℚ) / values.length)

/-- `ValuationEngine.normalized_fcf`: mean of the last 5 raw FCF entries
skipping NaN; NaN when the column is missing or those entries are all NaN. -/
def normalizedFcf (df : Table) : Val :=
  match df.free_cash_flow with
  | none => none
  | some fcf => meanQ (dropna (fcf.drop (fcf.length - 5)))

/-- `ValuationEngine.growth_rate`: mean of the valid latest raw values of
the 3-year revenue / FCF CAGR columns, clipped to [0.02, 0.10]; NaN when
neither is valid; raises when a column is present but empty. -/
def cagrCandidates (rv fv : Option Val) : List ℚ :=
  (match rv with
   | some (some x) => [x]
   | _ => []) ++
  (match fv with
   | some (some x) => [x]
   | _ => [])

def growthRateE (df : Table) : Except Unit Val := do
  let rv ← lastIfPresent df.revenue_cagr_3y
  let fv ← lastIfPresent df.fcf_cagr_3y
  let gvals := cagrCandidates rv fv
  if gvals.isEmpty then pure none
  else pure (some (clip (meanL gvals) (2/100) (10/100)))

/-- `ValuationEngine.discount_rate`: `clip(0.08 + 0.04 * dta, 0.07, 0.12)`
from the latest raw debt-to-assets value, flat 0.10 when the column is
missing or that value is NaN; raises when present but empty. -/
def discountRateE (df : Table) : Except Unit ℚ := do
  let d ← lastIfPresent df.debt_to_assets
  match d with
  | some (some v) => pure (clip (8/100 + 4/100 * v) (7/100) (12/100))
  | _ => pure (1/10)

/-- The arithmetic core of `ValuationEngine.dcf_value` after its validity
guard: five years of projected FCF discounted at `r`, plus a Gordon
terminal value at `terminal_g` discounted from year 5.  A NaN `r`
propagates to NaN; a zero float denominator (`(1+r)**t` or
`r - terminal_g`) would raise ZeroDivisionError on Python floats. -/
def dcfModelE (f0 gv : ℚ) (r : Val) (tg : ℚ) : Except Unit Val :=
  match r with
  | none => .ok none
  | some rv =>
    if 1 + rv = 0 then .error ()
    else if rv - tg = 0 then .error ()
    else
      let step := fun (acc : ℚ × ℚ) (t : ℕ) =>
        let fcf := acc.2 * (1 + gv)
        (acc.1 + fcf / (1 + rv) ^ t, fcf)
      let pair := (List.range' 1 5).foldl step (0, f0)
      let terminal := pair.2 * (1 + tg) / (rv - tg)
      .ok (some (pair.1 + terminal / (1 + rv) ^ 5))

/-- The validity guard and dispatch of `ValuationEngine.dcf_value`: NaN
when `fcf0` or `g` is invalid or `r ≤ g`, else the DCF arithmetic. -/
def dcfValueCore (fcf0 g r : Val) (tg : ℚ) : Except Unit Val :=
  match fcf0, g with
  | some f0, some gv =>
    if leV r gv then pure none else dcfModelE f0 gv r tg
  | _, _ => pure none

/-- `ValuationEngine.dcf_value(df, g, r, terminal_g)`: the `g` / `r`
arguments are `none` for the Python default `None` (recompute from the
table) and `some v` for an explicitly passed, possibly-NaN value. -/
def dcfValueE (df : Table) (gArg rArg : Option Val) (tg : ℚ) : Except Unit Val := do
  let fcf0 := normalizedFcf df
  let g ← match gArg with
    | none => growthRateE df
    | some v => pure v
  let r ← match rArg with
    | none => (discountRateE df).map some
    | some v => pure v
  dcfValueCore fcf0 g r tg

/-- The perpetuity `fcf0 * (1 + g) / (r - g)` of
`ValuationEngine.buffett_value` (a NaN `r` propagates to NaN; `r > g`
holds at every call site, so the denominator is nonzero). -/
def buffettModel (f0 gv : ℚ) (r : Val) : Val :=
  match r with
  | none => none
  | some rv => some (f0 * (1 + gv) / (rv - gv))

/-- The validity guard and dispatch of `ValuationEngine.buffett_value`. -/
def buffettValueCore (fcf0 g r : Val) : Except Unit Val :=
  match fcf0, g with
  | some f0, some gv =>
    if leV r gv then pure none else pure (buffettModel f0 gv r)
  | _, _ => pure none

/-- `ValuationEngine.buffett_value(df, g, r)`: NaN when `fcf0` or `g` is
invalid or `r ≤ g`. -/
def buffettValueE (df : Table) (gArg rArg : Option Val) : Except Unit Val := do
  let fcf0 := normalizedFcf df
  let g ← match gArg with
    | none => growthRateE df
    | some v => pure v
  let r ← match rArg with
    | none => (discountRateE df).map some
    | some v => pure v
  buffettValueCore fcf0 g r

/-- `ValuationEngine.multiples_value(df, pe_fair)`: latest raw EPS times
the target P/E; NaN when a required column is missing, the latest net
income is invalid, shares ≤ 0 or EPS ≤ 0; raises when a required column
is present but empty. -/
def multiplesValueE (df : Table) (pe : ℚ) : Except Unit Val :=
  match df.net_income, df.ordinary_shares_number with
  | some ni, some shares => do
    let niv ← ilocLastE ni
    let sh ← ilocLastE shares
    if niv.isNone || leV sh 0 then pure none
    else
      let eps := divV niv sh
      if leV eps 0 then pure none
      else pure (eps.map (fun e => e * pe))
  | _, _ => .ok none

/-- One parameter set of `ValuationEngine._scenario_params`. -/
structure ScenarioParams where
  g : Val
  r : Val
  terminal_g : ℚ
  pe : ℚ
deriving DecidableEq, Repr

/-- `ValuationEngine._scenario_params`: base / bull / bear (the discount
rate is always a real number, so only `g` carries a NaN case). -/
def scenarioParamsE (df : Table) :
    Except Unit (ScenarioParams × ScenarioParams × ScenarioParams) := do
  let gb ← growthRateE df
  let rb ← discountRateE df
  pure (⟨gb, some rb, 2/100, 15⟩,
    ⟨gb.map (fun g => clip (g + 2/100) (2/100) (12/100)),
     some (clip (rb - 1/100) (7/100) (12/100)), 3/100, 18⟩,
    ⟨gb.map (fun g => clip (g - 1/100) 0 (8/100)),
     some (clip (rb + 1/100) (7/100) (13/100)), 3/200, 12⟩)

/-- One scenario block of the valuation output. -/
structure Scenario where
  fair_value : Val
  confidence : ℚ
  assumptions : ScenarioParams
deriving DecidableEq, Repr

/-- One iteration of the scenario loop in `ValuationEngine.analyze`.  It
also returns the loop-local per-share DCF and owner-earnings values: the
Python loop rebinds the outer `dcf_ps` / `buffett_ps` variables, so the
last iteration's values leak into the returned dict. -/
def scenarioRunE (df : Table) (p : ScenarioParams) : Except Unit (Scenario × Val × Val) := do
  let dcf_t ← dcfValueE df (some p.g) (some p.r) p.terminal_g
  let buffett_t ← buffettValueE df (some p.g) (some p.r)
  let dcf_ps := toPerShare (equityFromEnterprise dcf_t df) df
  let buffett_ps := toPerShare (equityFromEnterprise buffett_t df) df
  let mult_ps ← multiplesValueE df p.pe
  let sc := safeScore [dcf_ps, buffett_ps, mult_ps]
  pure (⟨sc.1, sc.2, p⟩, dcf_ps, buffett_ps)

/-- The base-case per-share DCF value computed by `ValuationEngine.analyze`
(enterprise DCF → equity value → per share). -/
def dcfPerShareBaseE (df : Table) : Except Unit Val := do
  let t ← dcfValueE df none none (2/100)
  pure (toPerShare (equityFromEnterprise t df) df)

/-- The base-case per-share owner-earnings value of `ValuationEngine.analyze`. -/
def buffettPerShareBaseE (df : Table) : Except Unit Val := do
  let t ← buffettValueE df none none
  pure (toPerShare (equityFromEnterprise t df) df)

/-- Output dictionary of `ValuationEngine.analyze`.  Because the scenario
loop rebinds `dcf_ps` / `buffett_ps`, the reported `dcf_value` and
`buffett_value` are the last (bear) scenario's per-share values, not the
base-case ones. -/
structure VResult where
  dcf_value : Val
  buffett_value : Val
  multiples_value : Val
  fair_value : Val
  valuation_confidence : ℚ
  base : Scenario
  bull : Scenario
  bear : Scenario
deriving DecidableEq, Repr

/-- `ValuationEngine.analyze`. -/
def valuationAnalyzeE (df : Table) : Except Unit VResult := do
  let params ← scenarioParamsE df
  let dcf_total ← dcfValueE df none none (2/100)
  let buffett_total ← buffettValueE df none none
  let multiples_ps ← multiplesValueE df 15
  let dcf_ps := toPerShare (equityFromEnterprise dcf_total df) df
  let buffett_ps := toPerShare (equityFromEnterprise buffett_total df) df
  let sc := safeScore [dcf_ps, buffett_ps, multiples_ps]
  let sBase ← scenarioRunE df params.1
  let sBull ← scenarioRunE df params.2.1
  let sBear ← scenarioRunE df params.2.2
  pure ⟨sBear.2.1, sBear.2.2, multiples_ps,
    sc.1.map round2, sc.2, sBase.1, sBull.1, sBear.1⟩

-- ======================================================================
-- src/analyst/market.py
-- ======================================================================

/-- `MarketAnalyzer.find_field(source, ["close", "adj_close", "price"])`. -/
def priceFieldCAP (t : Table) : Option Series :=
  (t.close.orElse fun _ => t.adj_close).orElse fun _ => t.price

/-- `MarketAnalyzer.find_field(source, ["close", "adj_close"])`. -/
def priceFieldCA (t : Table) : Option Series :=
  t.close.orElse fun _ => t.adj_close

/-- `MarketAnalyzer.market_price`: a non-None finite override wins;
otherwise the last raw value of the first price-like column of the price
table (when given) or of the feature table; NaN when no such column
exists; raises when the column is present but empty. -/
def marketPriceE (df : Table) (ov : Val) (priceDf : Option Table) : Except Unit Val :=
  match ov with
  | some v => .ok (some v)
  | none =>
    match priceFieldCAP (priceDf.getD df) with
    | none => .ok none
    | some p => ilocLastE p

/-- NaN-propagating subtraction. -/
def subVV (a b : Val) : Val :=
  match a, b with
  | some x, some y => some (x - y)
  | _, _ => none

/-- `series.pct_change()`: first entry NaN, then `p_i / p_{i-1} - 1` with
NaN propagation. -/
def pctChange (s : Series) : Series :=
  none :: (s.tail.zip s).map (fun pr => (divV pr.1 pr.2).map (fun x => x - 1))

/-- The three trailing returns of `MarketAnalyzer.returns`
(the empty-dict result is modelled as `none` at the call site). -/
structure Returns3 where
  r1 : Val
  r3 : Val
  r5 : Val
deriving DecidableEq, Repr

/-- Element of a raw series at Python index `-k` (callers guard the length). -/
def atNeg (s : Series) (k : ℕ) : Val := (s.get? (s.length - k)).join

/-- `MarketAnalyzer.returns`: the empty dict (`none`) when no close /
adj-close column exists or it has fewer than 252 rows; the 1-year return
needs at least 252 rows, the 3- and 5-year returns strictly more than
756 / 1260 rows. -/
def marketReturns (source : Table) : Option Returns3 :=
  match priceFieldCA source with
  | none => none
  | some p =>
    if p.length < 252 then none
    else some
      ⟨(divV (atNeg p 1) (atNeg p 252)).map (fun x => x - 1),
       if 756 < p.length then (divV (atNeg p 1) (atNeg p 756)).map (fun x => x - 1)
       else none,
       if 1260 < p.length then (divV (atNeg p 1) (atNeg p 1260)).map (fun x => x - 1)
       else none⟩

/-- Sample standard deviation (pandas `.std()`, `ddof = 1`): NaN for fewer
than 2 points. -/
def stdQ (rootQ : ℕ → ℚ → ℚ) (l : List ℚ) : Val :=
  if 2 ≤ l.length then some (rootQ 2 (sampleVar l)) else none

/-- `MarketAnalyzer.volatility`: `std(pct_change().dropna()) * sqrt(252)`. -/
def volatilityF (rootQ : ℕ → ℚ → ℚ) (source : Table) : Val :=
  match priceFieldCA source with
  | none => none
  | some p => (stdQ rootQ (dropna (pctChange p))).map (fun s => s * rootQ 2 252)

/-- Running maximum over the non-NaN values seen so far (`Series.cummax`):
NaN entries stay NaN and do not interrupt the running maximum. -/
def cummaxAux (best : Option ℚ) : List Val → List Val
  | [] => []
  | none :: rest => none :: cummaxAux best rest
  | some x :: rest =>
    let b := match best with
      | none => x
      | some mx => max mx x
    some b :: cummaxAux (some b) rest

/-- `Series.cummax()`. -/
def cummax (l : List Val) : List Val := cummaxAux none l

/-- `Series.min()`: skips NaN; NaN when nothing remains. -/
def minV (l : List Val) : Val :=
  match l.filterMap id with
  | [] => none
  | x :: xs => some (xs.foldl min x)

/-- `MarketAnalyzer.max_drawdown`: minimum of `(cum - peak) / peak` with
`cum = price / price.iloc[0]`; NaN when no price column exists; raises
when the column is present but empty. -/
def maxDrawdownE (source : Table) : Except Unit Val :=
  match priceFieldCA source with
  | none => .ok none
  | some p => do
    let p0 ← ilocHeadE p
    let cumulative := p.map (fun v => divV v p0)
    let dd := (cumulative.zip (cummax cumulative)).map
      (fun pr => divV (subVV pr.1 pr.2) pr.2)
    pure (minV dd)

/-- The two market multiples. -/
structure Multiples where
  pe : Val
  p_fcf : Val
deriving DecidableEq, Repr

/-- One multiple inside `MarketAnalyzer.market_multiples`:
`price / (numerator / shares)` when the latest raw numerator and share
count are both positive, NaN otherwise (or when a column is missing);
raises when a column is present but empty. -/
def multipleFromE (price : Val) (numCol shCol : Option Series) : Except Unit Val :=
  match numCol, shCol with
  | some num, some shares => do
    let nv ← ilocLastE num
    let sh ← ilocLastE shares
    if gtV nv 0 && gtV sh 0 then pure (divV price (divV nv sh))
    else pure (none : Val)
  | _, _ => pure none

/-- `MarketAnalyzer.market_multiples`: trailing P/E and P/FCF from the
latest raw net income / FCF and shares, combined with the resolved
current price. -/
def marketMultiplesE (df : Table) (ov : Val) (priceDf : Option Table) :
    Except Unit Multiples := do
  let price ← marketPriceE df ov priceDf
  let pe ← multipleFromE price df.net_income df.ordinary_shares_number
  let pfcf ← multipleFromE price df.free_cash_flow df.ordinary_shares_number
  pure ⟨pe, pfcf⟩

/-- Output dictionary of `MarketAnalyzer.analyze` (`rets` is the returns
dict, `none` for the empty dict). -/
structure MResult where
  market_price : Val
  rets : Option Returns3
  volatility : Val
  max_drawdown : Val
  multiples : Multiples
deriving DecidableEq, Repr

/-- `MarketAnalyzer.analyze`. -/
def marketAnalyzeE (rootQ : ℕ → ℚ → ℚ) (df : Table) (ov : Val) (priceDf : Option Table) :
    Except Unit MResult := do
  let mp ← marketPriceE df ov priceDf
  let mdd ← maxDrawdownE (priceDf.getD df)
  let mult ← marketMultiplesE df ov priceDf
  pure ⟨mp, marketReturns (priceDf.getD df), volatilityF rootQ (priceDf.getD df), mdd, mult⟩

-- ======================================================================
-- src/analyst/rating.py
-- ======================================================================

/-- `RatingEngine.clamp(x, low, high)`. -/
def clamp (x lo hi : ℚ) : ℚ := max lo (min hi x)

/-- The fields of the quality dict that `RatingEngine` reads.  The
confidence field is `none` when the key is missing (the upstream
components always store a real number under it when present). -/
structure RQuality where
  quality_score : Val := none
  quality_confidence : Val := none
deriving DecidableEq, Repr

/-- The fields of the valuation dict that `RatingEngine` reads. -/
structure RValuation where
  fair_value : Val := none
  valuation_confidence : Val := none
deriving DecidableEq, Repr

/-- The fields of the market dict that `RatingEngine` reads. -/
structure RMarket where
  market_price : Val := none
  volatility : Val := none
  max_drawdown : Val := none
deriving DecidableEq, Repr

/-- `RatingEngine.value_score`: 50 when fair value or price is invalid or
the price is non-positive, else `clamp(50 + 100 * (fair/price - 1))`. -/
def value_score (v : RValuation) (m : RMarket) : ℚ :=
  match v.fair_value, m.market_price with
  | some fair, some price =>
    if price ≤ 0 then 50 else clamp (50 + ((fair / price) - 1) * 100) 0 100
  | _, _ => 50

/-- `RatingEngine.quality_score`: pass-through with neutral 50 when absent. -/
def quality_score_r (q : RQuality) : ℚ :=
  match q.quality_score with
  | none => 50
  | some s => clamp s 0 100

/-- `RatingEngine.market_score`: starts from 100, subtracts
`volatility * 100` and adds `drawdown * 50` when those inputs are valid. -/
def market_score (m : RMarket) : ℚ :=
  let s1 : ℚ :=
    match m.volatility with
    | some v => 100 - v * 100
    | none => 100
  let s2 : ℚ :=
    match m.max_drawdown with
    | some d => s1 + d * 50
    | none => s1
  clamp s2 0 100

/-- `RatingEngine.risk_score`: starts from 100, subtracts
`volatility * 80`, and 20 more when price and fair value are both valid
with price above fair value. -/
def risk_score (m : RMarket) (v : RValuation) : ℚ :=
  let s1 : ℚ :=
    match m.volatility with
    | some vol => 100 - vol * 80
    | none => 100
  let s2 : ℚ :=
    match v.fair_value, m.market_price with
    | some fair, some price => if fair < price then s1 - 20 else s1
    | _, _ => s1
  clamp s2 0 100

/-- `RatingEngine.final_rating`. -/
def final_rating (total : ℚ) : String :=
  if 75 ≤ total then "BUY" else if 55 ≤ total then "HOLD" else "SELL"

/-- Weight `v_conf = float(valuation.get("valuation_confidence", 0.0) or 0.0)`. -/
def vConfW (v : RValuation) : ℚ := (v.valuation_confidence).getD 0

/-- Weight `q_conf = float(quality.get("quality_confidence", 0.0) or 0.0)`. -/
def qConfW (q : RQuality) : ℚ := (q.quality_confidence).getD 0

/-- Weight `m_conf`: 1 when volatility or max drawdown is valid, else 0. -/
def mConfW (m : RMarket) : ℚ :=
  if m.volatility.isSome || m.max_drawdown.isSome then 1 else 0

/-- Weight `r_conf`: 1 when volatility is valid, or price and fair value
both are, else 0. -/
def rConfW (m : RMarket) (v : RValuation) : ℚ :=
  if m.volatility.isSome || (m.market_price.isSome && v.fair_value.isSome) then 1 else 0

/-- The unrounded total of `RatingEngine.analyze`: `np.average(scores, weights)`
when some weight is positive, else the plain mean. -/
def rating_total (q : RQuality) (v : RValuation) (m : RMarket) : ℚ :=
  let scores := [value_score v m, quality_score_r q, market_score m, risk_score m v]
  let weights := [vConfW v, qConfW q, mConfW m, rConfW m v]
  if 0 < weights.sum then
    ((scores.zip weights).map (fun p => p.1 * p.2)).sum / weights.sum
  else meanL scores

/-- Output dictionary of `RatingEngine.analyze`. -/
structure RResult where
  value_score : ℚ
  quality_score : ℚ
  market_score : ℚ
  risk_score : ℚ
  total_score : ℚ
  score_confidence : ℚ
  rating : String
deriving DecidableEq, Repr

/-- `RatingEngine.analyze`: the label is computed from the unrounded total,
the reported scores are rounded (one decimal; two for the confidence). -/
def ratingAnalyze (q : RQuality) (v : RValuation) (m : RMarket) : RResult :=
  let total := rating_total q v m
  ⟨round1 (value_score v m), round1 (quality_score_r q), round1 (market_score m),
   round1 (risk_score m v), round1 total,
   round2 (meanL [vConfW v, qConfW q, mConfW m, rConfW m v]),
   final_rating total⟩

-- ======================================================================
-- src/analyst/analyst_engine.py
-- ======================================================================

/-- Output of `AnalystEngine.analyze`: the four component blocks plus the
flattened convenience fields. -/
structure EngineResult where
  quality : QResult
  valuation : VResult
  market : MResult
  rating : RResult
  quality_score : Val
  growth_score : Val
  profitability_score : Val
  financial_strength_score : Val
  stability_score : Val
  quality_confidence : Val
  fair_value : Val
  valuation_confidence : ℚ
  dcf_value : Val
  buffett_value : Val
  multiples_value : Val
  market_price : Val
  value_score : ℚ
  risk_score : ℚ
  market_score : ℚ
  total_score : ℚ
  rating_label : String
deriving DecidableEq, Repr

/-- `AnalystEngine.analyze` (the `ticker` argument plays no role in the
computation). -/
def engineAnalyzeE (rootQ : ℕ → ℚ → ℚ) (df : Table) (ticker : String) (ov : Val)
    (priceDf : Option Table) : Except Unit EngineResult := do
  let _ := ticker
  let q := qualityAnalyze rootQ df
  let v ← valuationAnalyzeE df
  let m ← marketAnalyzeE rootQ df ov priceDf
  let r := ratingAnalyze ⟨q.quality_score, q.quality_confidence⟩
    ⟨v.fair_value, some v.valuation_confidence⟩
    ⟨m.market_price, m.volatility, m.max_drawdown⟩
  pure ⟨q, v, m, r, q.quality_score, q.growth_quality_score, q.profitability_score,
    q.financial_strength_score, q.stability_score, q.quality_confidence,
    v.fair_value, v.valuation_confidence, v.dcf_value, v.buffett_value,
    v.multiples_value, m.market_price, r.value_score, r.risk_score, r.market_score,
    r.total_score, r.rating⟩

/-- The three mutually independent scoring components, for the
read-only-table / order-independence property. -/
inductive Component
  | quality
  | valuation
  | market
deriving DecidableEq, Repr

/-- The result of running one component. -/
inductive ComponentResult where
  | q (r : QResult)
  | v (r : Except Unit VResult)
  | m (r : Except Unit MResult)

/-- Run one scoring component against the table, returning the table in
the state it is left in: the source components only ever read `df`
(every pandas operation they use returns a fresh object), so the
state-passing embedding returns the table unchanged. -/
def runComponent (rootQ : ℕ → ℚ → ℚ) (ov : Val) (priceDf : Option Table) :
    Component → Table → Table × ComponentResult
  | .quality, df => (df, .q (qualityAnalyze rootQ df))
  | .valuation, df => (df, .v (valuationAnalyzeE df))
  | .market, df => (df, .m (marketAnalyzeE rootQ df ov priceDf))

/-- Run a sequence of components left to right, threading the table
through every call. -/
def runSeq (rootQ : ℕ → ℚ → ℚ) (ov : Val) (priceDf : Option Table) :
    List Component → Table → Table × List ComponentResult
  | [], df => (df, [])
  | c :: cs, df =>
    let step := runComponent rootQ ov priceDf c df
    let rest := runSeq rootQ ov priceDf cs step.1
    (rest.1, step.2 :: rest.2)

/-- All columns of a table, for quantifying over them. -/
def Table.cols (t : Table) : List (Option Series) :=
  [t.total_revenue, t.net_income, t.free_cash_flow, t.operating_margin, t.net_margin,
   t.debt_to_equity, t.debt_to_assets, t.current_ratio_s, t.quick_ratio_s,
   t.revenue_cagr_3y, t.fcf_cagr_3y, t.net_debt, t.ordinary_shares_number,
   t.close, t.adj_close, t.price]

/-- Every present column has at least one row.  In pandas all columns of
one DataFrame share the row count, so this holds for every table with at
least one row (and vacuously for a table with no columns). -/
def nonemptyCols (t : Table) : Bool :=
  t.cols.all (fun o =>
    match o with
    | none => true
    | some s => !s.isEmpty)

-- ======================================================================
-- Example tables used by witnesses and counterexamples
-- ======================================================================

/-- A table with three non-missing net margins and one current-ratio
point: exactly the profitability and financial-strength dimensions
produce a score. -/
def twoDimTable : Table :=
  { net_margin := some [some (1/10), some (2/10), some (3/10)],
    current_ratio_s := some [some 2] }

/-- A table whose only data is a single current-ratio point: exactly one
quality dimension produces a score, from a single non-missing period. -/
def singlePointTable : Table := { current_ratio_s := some [some 2] }

/-- A populated table on which the growth rate clips to its 0.10 cap and
the discount rate falls back to 0.10 (no debt-to-assets), so `r ≤ g`,
while the multiples model is defined (EPS 5, fair P/E 15). -/
def capGrowthTable : Table :=
  { free_cash_flow := some [some 100],
    revenue_cagr_3y := some [some (15/100)],
    net_income := some [some 50],
    ordinary_shares_number := some [some 10] }

end StockAnalyst

-- ======================================================================
-- Theorems
-- ======================================================================

namespace StockAnalyst

/-- C3. Coverage confidence: `compute_with_fallback` returns confidence exactly 0
(and an absent value) whenever fewer than `minimum_years` non-missing points
exist; otherwise it returns the reducer applied to the most recent
`min(count, preferred_years)` values with confidence `used / preferred_years`;
the confidence is monotonically non-decreasing in the count of non-missing
points and never exceeds 1.  (The `None`-series input also yields value
absent, confidence 0.) -/
theorem coverage_confidence (p m : ℕ) (hp : 0 < p) (red : List ℚ → Val) (s t : Series) :
    ((compute_with_fallback none p m red).value = none ∧
      (compute_with_fallback none p m red).confidence = 0) ∧
    (cleanCount s < m →
      (compute_with_fallback (some s) p m red).value = none ∧
      (compute_with_fallback (some s) p m red).confidence = 0) ∧
    (m ≤ cleanCount s →
      (compute_with_fallback (some s) p m red).value
          = red (tailN (min (cleanCount s) p) (dropna s)) ∧
      (compute_with_fallback (some s) p m red).confidence
          = ((min (cleanCount s) p : ℕ) : ℚ) / p) ∧
    (cleanCount s ≤ cleanCount t →
      (compute_with_fallback (some s) p m red).confidence ≤
        (compute_with_fallback (some t) p m red).confidence) ∧
    (compute_with_fallback (some s) p m red).confidence ≤ 1 := by
  have hconf : ∀ u : Series,
      (compute_with_fallback (some u) p m red).confidence =
        if cleanCount u < m then 0 else ((min (cleanCount u) p : ℕ) : ℚ) / p := by
    intro u
    simp only [compute_with_fallback, cleanCount]
    split <;> rfl
  have hnonneg : ∀ u : Series, 0 ≤ (compute_with_fallback (some u) p m red).confidence := by
    intro u
    rw [hconf u]
    split
    · exact le_refl 0
    · positivity
  have hc : (0 : ℚ) < p := by exact_mod_cast hp
  have hle1 : ∀ u : Series, (compute_with_fallback (some u) p m red).confidence ≤ 1 := by
    intro u
    rw [hconf u]
    split
    · exact zero_le_one
    · rw [div_le_one hc]
      exact_mod_cast min_le_right (cleanCount u) p
  refine ⟨⟨rfl, rfl⟩, ?_, ?_, ?_, hle1 s⟩
  · intro h
    simp only [compute_with_fallback, cleanCount] at *
    rw [if_pos h]
    exact ⟨rfl, rfl⟩
  · intro h
    simp only [compute_with_fallback, cleanCount] at *
    rw [if_neg (by omega)]
    exact ⟨rfl, rfl⟩
  · intro hst
    rw [hconf s, hconf t]
    by_cases hs : cleanCount s < m
    · rw [if_pos hs]
      split
      · exact le_refl 0
      · positivity
    · rw [if_neg hs, if_neg (by omega)]
      have hm : ((min (cleanCount s) p : ℕ) : ℚ) ≤ ((min (cleanCount t) p : ℕ) : ℚ) := by
        exact_mod_cast min_le_min_right p hst
      exact div_le_div_of_nonneg_right hm hc.le

/-- C3 witness: concrete series with 2, 4 and 7 non-missing points under the
default parameters `preferred_years = 5`, `minimum_years = 3`. -/
theorem coverage_confidence_witness :
    (compute_with_fallback (some [some 1, none, some 2]) 5 3 meanQ).confidence = 0 ∧
    (compute_with_fallback (some [some 1, some 2, some 3, none, some 4]) 5 3 meanQ).value
      = some (5/2) ∧
    (compute_with_fallback (some [some 1, some 2, some 3, none, some 4]) 5 3 meanQ).confidence
      = 4/5 ∧
    (compute_with_fallback
        (some [some 1, some 2, some 3, some 4, some 5, some 6, some 7]) 5 3 meanQ).confidence
      = 1 := by
  have h2 := coverage_confidence 5 3 (by decide) meanQ [some 1, none, some 2] []
  have h4 := coverage_confidence 5 3 (by decide) meanQ
    [some 1, some 2, some 3, none, some 4] []
  have h7 := coverage_confidence 5 3 (by decide) meanQ
    [some 1, some 2, some 3, some 4, some 5, some 6, some 7] []
  refine ⟨(h2.2.1 (by decide)).2, ?_, ?_, ?_⟩
  · rw [(h4.2.2.1 (by decide)).1]
    norm_num [meanQ, meanL, cleanCount, dropna, tailN, List.filterMap]
  · rw [(h4.2.2.1 (by decide)).2]
    norm_num [cleanCount, dropna, List.filterMap]
  · rw [(h7.2.2.1 (by decide)).2]
    norm_num [cleanCount, dropna, List.filterMap]

theorem mapDropna_getD (c : Option Series) : (c.map dropna).getD [] = dropna (c.getD []) := by
  cases c <;> rfl

theorem latestClean_eq_none_iff (c : Option Series) :
    latestClean c = none ↔ cleanCountC c = 0 := by
  cases c with
  | none => simp [latestClean, cleanCountC, cleanCount, dropna]
  | some s =>
    simp only [latestClean, cleanCountC, Option.getD_some, cleanCount,
      List.getLast?_eq_none_iff, List.length_eq_zero]

/-- C4. Quality floor: `QualityAnalyzer.analyze` returns an absent
`quality_score` (and `quality_confidence` 0) whenever fewer than 2 of the 4
dimensions produced a score; with at least 2, `quality_score` is the mean of
the present dimension scores and `quality_confidence` is the mean of the
strictly positive dimension confidences. -/
theorem quality_floor (rootQ : ℕ → ℚ → ℚ) (df : Table) :
    (((dimScores rootQ df).filterMap id).length < 2 →
      (qualityAnalyze rootQ df).quality_score = none ∧
      (qualityAnalyze rootQ df).quality_confidence = some 0) ∧
    (2 ≤ ((dimScores rootQ df).filterMap id).length →
      (qualityAnalyze rootQ df).quality_score
          = some (meanL ((dimScores rootQ df).filterMap id)) ∧
      (qualityAnalyze rootQ df).quality_confidence
          = meanQ ((dimConfs rootQ df).filter (fun c => 0 < c))) := by
  constructor
  · intro h
    simp only [qualityAnalyze]
    rw [if_neg (by omega), if_neg (by omega)]
    exact ⟨rfl, rfl⟩
  · intro h
    simp only [qualityAnalyze]
    rw [if_pos h, if_pos h]
    exact ⟨rfl, rfl⟩

/-- C4 witness: a table where profitability (score 100) and financial
strength (score 50) are the two present dimensions, and a table where only
financial strength is present. -/
theorem quality_floor_witness :
    (qualityAnalyze (fun _ x => x) twoDimTable).quality_score = some 75 ∧
    (qualityAnalyze (fun _ x => x) twoDimTable).quality_confidence = some (7/15) ∧
    (qualityAnalyze (fun _ x => x) singlePointTable).quality_score = none ∧
    (qualityAnalyze (fun _ x => x) singlePointTable).quality_confidence = some 0 := by
  have hA := (quality_floor (fun _ x => x) twoDimTable).2
  have hB := (quality_floor (fun _ x => x) singlePointTable).1
  have hdA : (dimScores (fun _ x => x) twoDimTable).filterMap id = [100, 50] := by
    norm_num [dimScores, twoDimTable, profitability, growthQuality, financialStrength,
      stability, marginBranch, stabBranch, latestClean, scoreRange, meanIgnoreNan, meanQ,
      meanL, clip, dropna, tailN, List.filterMap, safeCagrEndpoints]
  have hdB : (dimScores (fun _ x => x) singlePointTable).filterMap id = [50] := by
    norm_num [dimScores, singlePointTable, profitability, growthQuality, financialStrength,
      stability, marginBranch, stabBranch, latestClean, scoreRange, meanIgnoreNan, meanQ,
      meanL, clip, dropna, tailN, List.filterMap, safeCagrEndpoints]
  rw [hdA] at hA
  rw [hdB] at hB
  obtain ⟨hA1, hA2⟩ := hA (by decide)
  obtain ⟨hB1, hB2⟩ := hB (by decide)
  refine ⟨?_, ?_, hB1, hB2⟩
  · rw [hA1]
    norm_num [meanL]
  · rw [hA2]
    norm_num [dimConfs, twoDimTable, profitability, growthQuality, financialStrength,
      stability, marginBranch, stabBranch, latestClean, confQ, meanQ, meanL, dropna,
      tailN, List.filterMap]

/-- C5 counterexample: the financial-strength dimension produces a score
(50) from a table whose only data is a single non-missing current-ratio
point, although every underlying input has fewer than 3 non-missing
periods — so not every dimension requires 3 periods of history. -/
theorem dimension_minimum_history_counterexample :
    (financialStrength singlePointTable).1 = some 50 ∧
    cleanCountC singlePointTable.current_ratio_s = 1 ∧
    singlePointTable.debt_to_equity = none ∧
    singlePointTable.debt_to_assets = none ∧
    singlePointTable.quick_ratio_s = none := by
  refine ⟨?_, by decide, rfl, rfl, rfl⟩
  norm_num [financialStrength, singlePointTable, latestClean, scoreRange, meanIgnoreNan,
    meanQ, meanL, clip, dropna, confQ, List.filterMap]

/-- C5 (amended). Profitability, growth quality and stability produce a
score only if some underlying input has at least 3 non-missing periods;
financial strength instead produces a score exactly when at least one of
its four inputs has at least 1 non-missing value (a single period
suffices). -/
theorem dimension_minimum_history (rootQ : ℕ → ℚ → ℚ) (df : Table) :
    ((profitability df).1 ≠ none →
        3 ≤ cleanCountC df.operating_margin ∨ 3 ≤ cleanCountC df.net_margin) ∧
    ((growthQuality rootQ df).1 ≠ none →
        3 ≤ cleanCountC df.total_revenue ∨ 3 ≤ cleanCountC df.free_cash_flow ∨
          3 ≤ cleanCountC df.net_income) ∧
    ((stability rootQ df).1 ≠ none →
        3 ≤ cleanCountC df.net_income ∨ 3 ≤ cleanCountC df.free_cash_flow ∨
          3 ≤ cleanCountC df.operating_margin) ∧
    ((financialStrength df).1 ≠ none ↔
        1 ≤ cleanCountC df.debt_to_equity ∨ 1 ≤ cleanCountC df.debt_to_assets ∨
          1 ≤ cleanCountC df.current_ratio_s ∨ 1 ≤ cleanCountC df.quick_ratio_s) := by
  refine ⟨?_, ?_, ?_, ?_⟩
  · intro h
    by_contra hc
    push_neg at hc
    apply h
    have h1 : marginBranch df.operating_margin (5/100) (30/100) = ([], 0) := by
      rcases hom : df.operating_margin with _ | s
      · rfl
      · rw [hom] at hc
        simp only [marginBranch]
        rw [if_neg (by simpa [cleanCountC, cleanCount] using hc.1)]
    have h2 : marginBranch df.net_margin (3/100) (20/100) = ([], 0) := by
      rcases hnm : df.net_margin with _ | s
      · rfl
      · rw [hnm] at hc
        simp only [marginBranch]
        rw [if_neg (by simpa [cleanCountC, cleanCount] using hc.2)]
    simp [profitability, h1, h2, meanIgnoreNan, meanQ]
  · intro h
    by_contra hc
    push_neg at hc
    apply h
    obtain ⟨hr, hf, hn⟩ := hc
    simp only [cleanCountC, cleanCount] at hr hf hn
    rw [← mapDropna_getD] at hr hf hn
    simp [growthQuality, if_neg (by omega : ¬ 3 ≤ ((df.total_revenue.map dropna).getD []).length),
      if_neg (by omega : ¬ 3 ≤ ((df.free_cash_flow.map dropna).getD []).length),
      if_neg (by omega : ¬ 3 ≤ ((df.net_income.map dropna).getD []).length),
      meanIgnoreNan, meanQ]
  · intro h
    by_contra hc
    push_neg at hc
    apply h
    obtain ⟨hn, hf, ho⟩ := hc
    simp only [cleanCountC, cleanCount] at hn hf ho
    rw [← mapDropna_getD] at hn hf ho
    have b1 : stabBranch rootQ true df.net_income (-1) = ([], 0) := by
      simp only [stabBranch]
      rw [if_neg (by omega)]
    have b2 : stabBranch rootQ true df.free_cash_flow (-1) = ([], 0) := by
      simp only [stabBranch]
      rw [if_neg (by omega)]
    have b3 : stabBranch rootQ false df.operating_margin (-(15/100)) = ([], 0) := by
      simp only [stabBranch]
      rw [if_neg (by omega)]
    simp [stability, b1, b2, b3, meanIgnoreNan, meanQ]
  · rw [← not_iff_not]
    push_neg
    simp only [not_or, not_le, Nat.lt_one_iff, ← latestClean_eq_none_iff, not_not]
    rcases h1 : latestClean df.debt_to_equity with _ | v1 <;>
      rcases h2 : latestClean df.debt_to_assets with _ | v2 <;>
        rcases h3 : latestClean df.current_ratio_s with _ | v3 <;>
          rcases h4 : latestClean df.quick_ratio_s with _ | v4 <;>
            simp [financialStrength, h1, h2, h3, h4, meanIgnoreNan, meanQ, scoreRange]

/-- C5 witness: the amended theorem applied to concrete tables — the
profitability implication at a table with 3 margin points, and the
financial-strength iff (in both directions) at a single-point table. -/
theorem dimension_minimum_history_witness :
    (3 ≤ cleanCountC twoDimTable.operating_margin ∨
      3 ≤ cleanCountC twoDimTable.net_margin) ∧
    (financialStrength singlePointTable).1 ≠ none := by
  constructor
  · apply (dimension_minimum_history (fun _ x => x) twoDimTable).1
    have hp : (profitability twoDimTable).1 = some 100 := by
      norm_num [profitability, twoDimTable, marginBranch, scoreRange, meanIgnoreNan,
        meanQ, meanL, clip, dropna, tailN, List.filterMap]
    rw [hp]
    simp
  · apply (dimension_minimum_history (fun _ x => x) singlePointTable).2.2.2.mpr
    right; right; left
    decide

/-- C1 counterexample: with quality, valuation and market all fully absent,
`RatingEngine.analyze` reports market and risk sub-scores of 100 (not 50),
a total of 75 (not 50) and the rating "BUY" (not "HOLD"). -/
theorem rating_neutrality_counterexample :
    ratingAnalyze {} {} {} = ⟨50, 50, 100, 100, 75, 0, "BUY"⟩ := by
  norm_num [ratingAnalyze, rating_total, value_score, quality_score_r, market_score,
    risk_score, vConfW, qConfW, mConfW, rConfW, clamp, meanL, round1, round2,
    roundHalfEven, final_rating]

/-- C1 (amended). When quality score, fair value, market price, volatility
and max drawdown are all absent, the value and quality sub-scores are the
neutral 50 but the market and risk sub-scores are 100; when additionally
the quality and valuation confidences are 0 (as the upstream components
produce for fully absent data), the total score is 75 and the rating is
"BUY". -/
theorem rating_neutrality (q : RQuality) (v : RValuation) (m : RMarket)
    (hq : q.quality_score = none) (hfv : v.fair_value = none)
    (hmp : m.market_price = none) (hvol : m.volatility = none)
    (hdd : m.max_drawdown = none) :
    value_score v m = 50 ∧ quality_score_r q = 50 ∧
    market_score m = 100 ∧ risk_score m v = 100 ∧
    (qConfW q = 0 → vConfW v = 0 →
      rating_total q v m = 75 ∧ (ratingAnalyze q v m).total_score = 75 ∧
      (ratingAnalyze q v m).rating = "BUY") := by
  have h1 : value_score v m = 50 := by
    simp [value_score, hfv]
  have h2 : quality_score_r q = 50 := by
    simp [quality_score_r, hq]
  have h3 : market_score m = 100 := by
    simp [market_score, hvol, hdd, clamp]
  have h4 : risk_score m v = 100 := by
    simp [risk_score, hvol, hfv, clamp]
  refine ⟨h1, h2, h3, h4, ?_⟩
  intro hqc hvc
  have hw : rating_total q v m = 75 := by
    simp only [rating_total, h1, h2, h3, h4, hqc, hvc, mConfW, rConfW, hvol, hmp, hdd,
      Option.isSome_none, Bool.false_or, Bool.and_eq_true, Bool.false_and]
    norm_num [meanL]
  refine ⟨hw, ?_, ?_⟩
  · show round1 (rating_total q v m) = 75
    rw [hw]
    norm_num [round1, roundHalfEven]
  · show final_rating (rating_total q v m) = "BUY"
    rw [hw]
    norm_num [final_rating]

/-- C1 witness: the amended theorem applied to the fully-absent input. -/
theorem rating_neutrality_witness :
    market_score {} = 100 ∧ risk_score {} {} = 100 ∧
    (ratingAnalyze {} {} {}).total_score = 75 ∧
    (ratingAnalyze {} {} {}).rating = "BUY" := by
  have h := rating_neutrality {} {} {} rfl rfl rfl rfl rfl
  have h5 := h.2.2.2.2 rfl rfl
  exact ⟨h.2.2.1, h.2.2.2.1, h5.2.1, h5.2.2⟩

/-- C10. The rating label returned by `RatingEngine.analyze` is obtained by
applying the fixed thresholds to the unrounded confidence-weighted total,
while the reported `total_score` is that total rounded to one decimal;
consequently, at quality score 74.99 with confidence 1 (everything else
absent), the reported total is exactly the BUY threshold 75.0 while the
label is the lower band "HOLD". -/
theorem rating_before_rounding :
    (∀ (q : RQuality) (v : RValuation) (m : RMarket),
      (ratingAnalyze q v m).rating = final_rating (rating_total q v m) ∧
      (ratingAnalyze q v m).total_score = round1 (rating_total q v m)) ∧
    (ratingAnalyze { quality_score := some (7499/100), quality_confidence := some 1 }
        {} {}).total_score = 75 ∧
    (ratingAnalyze { quality_score := some (7499/100), quality_confidence := some 1 }
        {} {}).rating = "HOLD" ∧
    final_rating 75 = "BUY" := by
  refine ⟨fun q v m => ⟨rfl, rfl⟩, ?_, ?_, by norm_num [final_rating]⟩
  · show round1 (rating_total _ _ _) = 75
    have ht : rating_total
        { quality_score := some (7499/100), quality_confidence := some 1 } {} {}
        = 7499/100 := by
      norm_num [rating_total, value_score, quality_score_r, market_score, risk_score,
        vConfW, qConfW, mConfW, rConfW, clamp, meanL]
    rw [ht]
    norm_num [round1, roundHalfEven]
  · show final_rating (rating_total _ _ _) = "HOLD"
    have ht : rating_total
        { quality_score := some (7499/100), quality_confidence := some 1 } {} {}
        = 7499/100 := by
      norm_num [rating_total, value_score, quality_score_r, market_score, risk_score,
        vConfW, qConfW, mConfW, rConfW, clamp, meanL]
    rw [ht]
    norm_num [final_rating]

theorem atNeg_replicate (n k : ℕ) (a : Val) (h1 : 1 ≤ k) (h2 : k ≤ n) :
    atNeg (List.replicate n a) k = a := by
  simp only [atNeg]
  rw [List.length_replicate, List.get?_eq_getElem?, List.getElem?_replicate,
    if_pos (by omega)]
  cases a <;> rfl

/-- C7 counterexample: on a price series of exactly 756 observations the
3-year return is absent (the code requires strictly more than 756), while
the claim says at least 756 suffice. -/
theorem return_horizons_counterexample :
    marketReturns { close := some (List.replicate 756 (some 1)) } =
      some ⟨some 0, none, none⟩ ∧
    (List.replicate 756 (some (1:ℚ))).length = 756 := by
  refine ⟨?_, by rw [List.length_replicate]⟩
  simp only [marketReturns, priceFieldCA, Option.orElse]
  rw [if_neg (by rw [List.length_replicate]; omega)]
  rw [if_neg (by rw [List.length_replicate]; omega)]
  rw [if_neg (by rw [List.length_replicate]; omega)]
  rw [atNeg_replicate 756 1 (some 1) (by omega) (by omega),
    atNeg_replicate 756 252 (some 1) (by omega) (by omega)]
  norm_num [divV]

/-- C7 (amended). `MarketAnalyzer.returns` yields the empty dict when the
price series is missing or has fewer than 252 observations; otherwise the
1-year return is computed (from at least 252 observations), the 3-year
return requires strictly more than 756 observations (at least 757) and
the 5-year return strictly more than 1260 (at least 1261), each being
absent below its threshold. -/
theorem return_horizons (p : Series) :
    (p.length < 252 → marketReturns { close := some p } = none) ∧
    (252 ≤ p.length → marketReturns { close := some p } =
      some ⟨(divV (atNeg p 1) (atNeg p 252)).map (fun x => x - 1),
        if 756 < p.length then (divV (atNeg p 1) (atNeg p 756)).map (fun x => x - 1)
        else none,
        if 1260 < p.length then (divV (atNeg p 1) (atNeg p 1260)).map (fun x => x - 1)
        else none⟩) ∧
    marketReturns {} = none := by
  refine ⟨?_, ?_, rfl⟩
  · intro h
    simp only [marketReturns, priceFieldCA, Option.orElse]
    rw [if_pos h]
  · intro h
    simp only [marketReturns, priceFieldCA, Option.orElse]
    rw [if_neg (by omega)]

/-- C7 witness: the amended theorem applied to a 10-observation series
(whole result empty) and to a 252-observation constant series (1-year
return 0, longer horizons absent). -/
theorem return_horizons_witness :
    marketReturns { close := some (List.replicate 10 (some (1:ℚ))) } = none ∧
    marketReturns { close := some (List.replicate 252 (some (1:ℚ))) } =
      some ⟨some 0, none, none⟩ := by
  constructor
  · exact (return_horizons _).1 (by rw [List.length_replicate]; omega)
  · rw [(return_horizons _).2.1 (by rw [List.length_replicate])]
    rw [if_neg (by rw [List.length_replicate]; omega)]
    rw [if_neg (by rw [List.length_replicate]; omega)]
    rw [atNeg_replicate 252 1 (some 1) (by omega) (by omega),
      atNeg_replicate 252 252 (some 1) (by omega) (by omega)]
    norm_num [divV]

theorem bind_ok_eq {α β : Type} (a : α) (f : α → Except Unit β) :
    (Except.ok a >>= f : Except Unit β) = f a := rfl

theorem bind_error_eq {α β : Type} (e : Unit) (f : α → Except Unit β) :
    (Except.error e >>= f : Except Unit β) = .error e := rfl

theorem pure_bind_eq {α β : Type} (a : α) (f : α → Except Unit β) :
    ((pure a : Except Unit α) >>= f) = f a := rfl

theorem pure_eq_ok {α : Type} (a : α) : (pure a : Except Unit α) = .ok a := rfl

theorem isOk_of_eq_ok {α : Type} {x : Except Unit α} {a : α} (h : x = .ok a) :
    x.isOk = true := by rw [h]; rfl

theorem exists_ok_of_eq {α : Type} {x : Except Unit α} {a : α} (h : x = .ok a) :
    ∃ v, x = .ok v := ⟨a, h⟩

theorem col_nonempty {t : Table} (h : nonemptyCols t = true) (c : Option Series)
    (hc : c ∈ t.cols) : ∀ s, c = some s → s ≠ [] := by
  intro s hs hnil
  subst hs
  subst hnil
  have hx := List.all_eq_true.mp h _ hc
  simp at hx

theorem ilocLastE_ok {s : Series} (h : s ≠ []) : ∃ v, ilocLastE s = .ok v := by
  cases hs : s.getLast? with
  | none => exact absurd (List.getLast?_eq_none_iff.mp hs) h
  | some v => exact ⟨v, by simp [ilocLastE, hs]⟩

theorem ilocHeadE_ok {s : Series} (h : s ≠ []) : ∃ v, ilocHeadE s = .ok v := by
  cases hs : s.head? with
  | none => exact absurd (List.head?_eq_none_iff.mp hs) h
  | some v => exact ⟨v, by simp [ilocHeadE, hs]⟩

theorem lastIfPresent_ok {c : Option Series} (h : ∀ s, c = some s → s ≠ []) :
    ∃ v, lastIfPresent c = .ok v := by
  cases c with
  | none => exact ⟨none, rfl⟩
  | some s =>
    obtain ⟨v, hv⟩ := ilocLastE_ok (h s rfl)
    exact ⟨some v, by simp [lastIfPresent, hv, Except.map]⟩

theorem growthRateE_ok {df : Table} (h : nonemptyCols df = true) :
    ∃ v, growthRateE df = .ok v := by
  obtain ⟨rv, hrv⟩ := lastIfPresent_ok
    (col_nonempty h df.revenue_cagr_3y (by simp [Table.cols]))
  obtain ⟨fv, hfv⟩ := lastIfPresent_ok
    (col_nonempty h df.fcf_cagr_3y (by simp [Table.cols]))
  simp only [growthRateE, hrv, bind_ok_eq, hfv]
  split
  · exact ⟨_, rfl⟩
  · exact ⟨_, rfl⟩

theorem discountRateE_ok {df : Table} (h : nonemptyCols df = true) :
    ∃ r, discountRateE df = .ok r ∧ 7/100 ≤ r ∧ r ≤ 12/100 := by
  obtain ⟨d, hd⟩ := lastIfPresent_ok
    (col_nonempty h df.debt_to_assets (by simp [Table.cols]))
  simp only [discountRateE, hd, bind_ok_eq]
  match d with
  | some (some v) =>
    refine ⟨_, rfl, ?_, ?_⟩
    · exact le_max_left _ _
    · exact max_le (by norm_num) (min_le_left _ _)
  | some none => exact ⟨_, rfl, by norm_num, by norm_num⟩
  | none => exact ⟨_, rfl, by norm_num, by norm_num⟩

theorem clip_bounds {x lo hi : ℚ} (h : lo ≤ hi) :
    lo ≤ clip x lo hi ∧ clip x lo hi ≤ hi :=
  ⟨le_max_left lo _, max_le h (min_le_left hi x)⟩

theorem multiplesValueE_ok {df : Table} (h : nonemptyCols df = true) (pe : ℚ) :
    ∃ v, multiplesValueE df pe = .ok v := by
  cases hni : df.net_income with
  | none => exact ⟨none, by simp [multiplesValueE, hni]⟩
  | some ni =>
    cases hsh : df.ordinary_shares_number with
    | none => exact ⟨none, by simp [multiplesValueE, hni, hsh]⟩
    | some sh =>
      obtain ⟨nv, hnv⟩ := ilocLastE_ok (col_nonempty h df.net_income
        (by simp [Table.cols]) ni hni)
      obtain ⟨sv, hsv⟩ := ilocLastE_ok (col_nonempty h df.ordinary_shares_number
        (by simp [Table.cols]) sh hsh)
      simp only [multiplesValueE, hni, hsh, hnv, bind_ok_eq, hsv]
      split
      · exact ⟨_, rfl⟩
      · split
        · exact ⟨_, rfl⟩
        · exact ⟨_, rfl⟩

theorem dcfModelE_ok (f0 gv : ℚ) {tg : ℚ} {r : Val}
    (hr : ∀ rv, r = some rv → 1 + rv ≠ 0 ∧ rv - tg ≠ 0) :
    ∃ v, dcfModelE f0 gv r tg = .ok v := by
  cases r with
  | none => exact ⟨none, rfl⟩
  | some rv =>
    obtain ⟨h1, h2⟩ := hr rv rfl
    simp only [dcfModelE]
    rw [if_neg h1, if_neg h2]
    exact ⟨_, rfl⟩

theorem dcfValueCore_ok (fcf0 g r : Val) (tg : ℚ)
    (hr : ∀ x, r = some x → 1 + x ≠ 0 ∧ x - tg ≠ 0) :
    ∃ v, dcfValueCore fcf0 g r tg = .ok v := by
  cases fcf0 with
  | none =>
    cases g with
    | none => exact ⟨none, rfl⟩
    | some gv => exact ⟨none, rfl⟩
  | some f0 =>
    cases g with
    | none => exact ⟨none, rfl⟩
    | some gv =>
      by_cases hle : leV r gv = true
      · refine ⟨none, ?_⟩
        simp only [dcfValueCore, if_pos hle]
        rfl
      · obtain ⟨v, hv⟩ := dcfModelE_ok f0 gv hr
        refine ⟨v, ?_⟩
        simp only [dcfValueCore, if_neg hle]
        exact hv

theorem buffettValueCore_ok (fcf0 g r : Val) :
    ∃ v, buffettValueCore fcf0 g r = .ok v := by
  cases fcf0 with
  | none =>
    cases g with
    | none => exact ⟨none, rfl⟩
    | some gv => exact ⟨none, rfl⟩
  | some f0 =>
    cases g with
    | none => exact ⟨none, rfl⟩
    | some gv =>
      by_cases hle : leV r gv = true
      · refine ⟨none, ?_⟩
        simp only [buffettValueCore, if_pos hle]
        rfl
      · refine ⟨buffettModel f0 gv r, ?_⟩
        simp only [buffettValueCore, if_neg hle]
        rfl

theorem dcfValueE_some_ok (df : Table) (gv rv : Val) {tg : ℚ}
    (hr : ∀ x, rv = some x → 1 + x ≠ 0 ∧ x - tg ≠ 0) :
    ∃ v, dcfValueE df (some gv) (some rv) tg = .ok v := by
  obtain ⟨v, hv⟩ := dcfValueCore_ok (normalizedFcf df) gv rv tg hr
  exact ⟨v, by simp only [dcfValueE, pure_bind_eq, hv]⟩

theorem buffettValueE_some_ok (df : Table) (gv rv : Val) :
    ∃ v, buffettValueE df (some gv) (some rv) = .ok v := by
  obtain ⟨v, hv⟩ := buffettValueCore_ok (normalizedFcf df) gv rv
  exact ⟨v, by simp only [buffettValueE, pure_bind_eq, hv]⟩

theorem scenarioRunE_ok {df : Table} (h : nonemptyCols df = true) (p : ScenarioParams)
    (hp : ∀ x, p.r = some x → 1 + x ≠ 0 ∧ x - p.terminal_g ≠ 0) :
    ∃ v, scenarioRunE df p = .ok v := by
  obtain ⟨d, hd⟩ := dcfValueE_some_ok df p.g p.r hp
  obtain ⟨b, hb⟩ := buffettValueE_some_ok df p.g p.r
  obtain ⟨m, hm⟩ := multiplesValueE_ok h p.pe
  apply exists_ok_of_eq
  simp only [scenarioRunE, hd, bind_ok_eq, hb, hm]
  rfl

theorem scenarioParamsE_ok {df : Table} (h : nonemptyCols df = true) :
    ∃ ps, scenarioParamsE df = .ok ps ∧
      (∀ x, ps.1.r = some x → 7/100 ≤ x ∧ x ≤ 12/100 ∧ ps.1.terminal_g = 2/100) ∧
      (∀ x, ps.2.1.r = some x → 7/100 ≤ x ∧ x ≤ 12/100 ∧ ps.2.1.terminal_g = 3/100) ∧
      (∀ x, ps.2.2.r = some x → 7/100 ≤ x ∧ x ≤ 13/100 ∧ ps.2.2.terminal_g = 3/200) := by
  obtain ⟨g, hg⟩ := growthRateE_ok h
  obtain ⟨r, hr, hr1, hr2⟩ := discountRateE_ok h
  refine ⟨(⟨g, some r, 2/100, 15⟩,
    ⟨g.map (fun x => clip (x + 2/100) (2/100) (12/100)),
     some (clip (r - 1/100) (7/100) (12/100)), 3/100, 18⟩,
    ⟨g.map (fun x => clip (x - 1/100) 0 (8/100)),
     some (clip (r + 1/100) (7/100) (13/100)), 3/200, 12⟩), ?_, ?_, ?_, ?_⟩
  · simp only [scenarioParamsE, hg, bind_ok_eq, hr]
    rfl
  · intro x hx
    obtain rfl : r = x := Option.some.inj hx
    exact ⟨hr1, hr2, rfl⟩
  · intro x hx
    obtain rfl : clip (r - 1/100) (7/100) (12/100) = x := Option.some.inj hx
    exact ⟨(clip_bounds (by norm_num)).1, (clip_bounds (by norm_num)).2, rfl⟩
  · intro x hx
    obtain rfl : clip (r + 1/100) (7/100) (13/100) = x := Option.some.inj hx
    exact ⟨(clip_bounds (by norm_num)).1, (clip_bounds (by norm_num)).2, rfl⟩

theorem dcfValueE_base_ok {df : Table} (h : nonemptyCols df = true) :
    ∃ v, dcfValueE df none none (2/100) = .ok v := by
  obtain ⟨g, hg⟩ := growthRateE_ok h
  obtain ⟨r, hr, hr1, hr2⟩ := discountRateE_ok h
  obtain ⟨v, hv⟩ := dcfValueCore_ok (normalizedFcf df) g (some r) (2/100) (by
    intro rv hrv
    obtain rfl : r = rv := Option.some.inj hrv
    constructor <;> intro hc <;> nlinarith)
  refine ⟨v, ?_⟩
  simp only [dcfValueE, hg, bind_ok_eq, hr, Except.map, hv]

theorem buffettValueE_base_ok {df : Table} (h : nonemptyCols df = true) :
    ∃ v, buffettValueE df none none = .ok v := by
  obtain ⟨g, hg⟩ := growthRateE_ok h
  obtain ⟨r, hr, hr1, hr2⟩ := discountRateE_ok h
  obtain ⟨v, hv⟩ := buffettValueCore_ok (normalizedFcf df) g (some r)
  refine ⟨v, ?_⟩
  simp only [buffettValueE, hg, bind_ok_eq, hr, Except.map, hv]

theorem valuationAnalyzeE_ok {df : Table} (h : nonemptyCols df = true) :
    (valuationAnalyzeE df).isOk = true := by
  obtain ⟨ps, hps, hb1, hb2, hb3⟩ := scenarioParamsE_ok h
  obtain ⟨dt, hdt⟩ := dcfValueE_base_ok h
  obtain ⟨bt, hbt⟩ := buffettValueE_base_ok h
  obtain ⟨mp, hmp⟩ := multiplesValueE_ok h 15
  obtain ⟨s1, hs1⟩ := scenarioRunE_ok h ps.1 (by
    intro x hx
    obtain ⟨hx1, hx2, hx3⟩ := hb1 x hx
    rw [hx3]
    constructor <;> intro hc <;> nlinarith)
  obtain ⟨s2, hs2⟩ := scenarioRunE_ok h ps.2.1 (by
    intro x hx
    obtain ⟨hx1, hx2, hx3⟩ := hb2 x hx
    rw [hx3]
    constructor <;> intro hc <;> nlinarith)
  obtain ⟨s3, hs3⟩ := scenarioRunE_ok h ps.2.2 (by
    intro x hx
    obtain ⟨hx1, hx2, hx3⟩ := hb3 x hx
    rw [hx3]
    constructor <;> intro hc <;> nlinarith)
  apply isOk_of_eq_ok
  simp only [valuationAnalyzeE, hps, bind_ok_eq, hdt, hbt, hmp, hs1, hs2, hs3]
  rfl

theorem sourceNonempty {df : Table} {priceDf : Option Table}
    (h1 : nonemptyCols df = true)
    (h2 : (priceDf.map nonemptyCols).getD true = true) :
    nonemptyCols (priceDf.getD df) = true := by
  cases priceDf with
  | none => exact h1
  | some t => exact h2

theorem priceFieldCAP_nonempty {t : Table} (h : nonemptyCols t = true) {s : Series}
    (hs : priceFieldCAP t = some s) : s ≠ [] := by
  simp only [priceFieldCAP, Option.orElse] at hs
  rcases hc : t.close with _ | c <;> rw [hc] at hs
  · rcases ha : t.adj_close with _ | a <;> rw [ha] at hs
    · simp at hs
      exact col_nonempty h t.price (by simp [Table.cols]) s hs
    · simp at hs
      subst hs
      exact col_nonempty h t.adj_close (by simp [Table.cols]) a ha
  · simp at hs
    subst hs
    exact col_nonempty h t.close (by simp [Table.cols]) c hc

theorem priceFieldCA_nonempty {t : Table} (h : nonemptyCols t = true) {s : Series}
    (hs : priceFieldCA t = some s) : s ≠ [] := by
  simp only [priceFieldCA, Option.orElse] at hs
  rcases hc : t.close with _ | c <;> rw [hc] at hs
  · simp at hs
    exact col_nonempty h t.adj_close (by simp [Table.cols]) s hs
  · simp at hs
    subst hs
    exact col_nonempty h t.close (by simp [Table.cols]) c hc

theorem marketPriceE_ok {df : Table} {priceDf : Option Table} (ov : Val)
    (h1 : nonemptyCols df = true)
    (h2 : (priceDf.map nonemptyCols).getD true = true) :
    ∃ v, marketPriceE df ov priceDf = .ok v := by
  cases ov with
  | some v => exact ⟨some v, rfl⟩
  | none =>
    simp only [marketPriceE]
    cases hp : priceFieldCAP (priceDf.getD df) with
    | none => exact ⟨none, rfl⟩
    | some p => exact ilocLastE_ok (priceFieldCAP_nonempty (sourceNonempty h1 h2) hp)

theorem maxDrawdownE_ok {t : Table} (h : nonemptyCols t = true) :
    ∃ v, maxDrawdownE t = .ok v := by
  simp only [maxDrawdownE]
  cases hp : priceFieldCA t with
  | none => exact ⟨none, rfl⟩
  | some p =>
    obtain ⟨p0, hp0⟩ := ilocHeadE_ok (priceFieldCA_nonempty h hp)
    apply exists_ok_of_eq
    simp only [hp0, bind_ok_eq]
    rfl

theorem multipleFromE_ok (price : Val) {a b : Option Series}
    (ha : ∀ s, a = some s → s ≠ []) (hb : ∀ s, b = some s → s ≠ []) :
    ∃ v, multipleFromE price a b = .ok v := by
  cases a with
  | none => exact ⟨none, rfl⟩
  | some num =>
    cases b with
    | none => exact ⟨none, rfl⟩
    | some shares =>
      obtain ⟨nv, hnv⟩ := ilocLastE_ok (ha num rfl)
      obtain ⟨sv, hsv⟩ := ilocLastE_ok (hb shares rfl)
      by_cases hc : (gtV nv 0 && gtV sv 0) = true
      · refine ⟨divV price (divV nv sv), ?_⟩
        simp only [multipleFromE, hnv, bind_ok_eq, hsv, if_pos hc]
        rfl
      · refine ⟨none, ?_⟩
        simp only [multipleFromE, hnv, bind_ok_eq, hsv, if_neg hc]
        rfl

theorem marketMultiplesE_ok {df : Table} {priceDf : Option Table} (ov : Val)
    (h1 : nonemptyCols df = true)
    (h2 : (priceDf.map nonemptyCols).getD true = true) :
    ∃ v, marketMultiplesE df ov priceDf = .ok v := by
  obtain ⟨pr, hpr⟩ := marketPriceE_ok ov h1 h2
  obtain ⟨v1, hv1⟩ := multipleFromE_ok pr
    (col_nonempty h1 df.net_income (by simp [Table.cols]))
    (col_nonempty h1 df.ordinary_shares_number (by simp [Table.cols]))
  obtain ⟨v2, hv2⟩ := multipleFromE_ok pr
    (col_nonempty h1 df.free_cash_flow (by simp [Table.cols]))
    (col_nonempty h1 df.ordinary_shares_number (by simp [Table.cols]))
  apply exists_ok_of_eq
  simp only [marketMultiplesE, hpr, bind_ok_eq, hv1, hv2]
  rfl

theorem marketAnalyzeE_ok {df : Table} {priceDf : Option Table}
    (rootQ : ℕ → ℚ → ℚ) (ov : Val)
    (h1 : nonemptyCols df = true)
    (h2 : (priceDf.map nonemptyCols).getD true = true) :
    (marketAnalyzeE rootQ df ov priceDf).isOk = true := by
  obtain ⟨mp, hmp⟩ := marketPriceE_ok ov h1 h2
  obtain ⟨dd, hdd⟩ := maxDrawdownE_ok (sourceNonempty h1 h2)
  obtain ⟨mm, hmm⟩ := marketMultiplesE_ok ov h1 h2
  apply isOk_of_eq_ok
  simp only [marketAnalyzeE, hmp, bind_ok_eq, hdd, hmm]
  rfl

theorem eq_ok_of_isOk {α : Type} {x : Except Unit α} (h : x.isOk = true) :
    ∃ a, x = .ok a := by
  cases x with
  | error e => simp [Except.isOk, Except.toBool] at h
  | ok a => exact ⟨a, rfl⟩

theorem equityFromEnterprise_none (df : Table) : equityFromEnterprise none df = none := rfl

theorem toPerShare_none (df : Table) : toPerShare none df = none := rfl

theorem engineAnalyzeE_ok {df : Table} {priceDf : Option Table}
    (rootQ : ℕ → ℚ → ℚ) (ticker : String) (ov : Val)
    (h1 : nonemptyCols df = true)
    (h2 : (priceDf.map nonemptyCols).getD true = true) :
    (engineAnalyzeE rootQ df ticker ov priceDf).isOk = true := by
  obtain ⟨v, hv⟩ := eq_ok_of_isOk (valuationAnalyzeE_ok h1)
  obtain ⟨m, hm⟩ := eq_ok_of_isOk (marketAnalyzeE_ok rootQ ov h1 h2)
  apply isOk_of_eq_ok
  simp only [engineAnalyzeE, hv, bind_ok_eq, hm]
  rfl

/-- C2 counterexample: on a table whose `revenue_cagr_3y` column is
present but has no rows, `ValuationEngine.analyze` raises IndexError
(from `iloc[-1]` inside `growth_rate`); likewise `MarketAnalyzer.analyze`
raises on a present-but-empty `close` column. -/
theorem no_raise_counterexample :
    valuationAnalyzeE { revenue_cagr_3y := some [] } = .error () ∧
    marketAnalyzeE (fun _ x => x) { close := some [] } none none = .error () :=
  ⟨rfl, rfl⟩

/-- C2 (amended). `QualityAnalyzer.analyze` and `RatingEngine.analyze`
are total; `ValuationEngine.analyze`, `MarketAnalyzer.analyze` and
`AnalystEngine.analyze` never raise provided every present column of the
feature table and of the price table has at least one row (pandas grants
this for every table with at least one row); on the fully absent table
valuation returns an absent fair value with confidence 0 and quality an
absent quality score with confidence 0.  With a present zero-row column
the valuation and market analyzers raise IndexError (see the
counterexample). -/
theorem no_raise (rootQ : ℕ → ℚ → ℚ) (df : Table) (ticker : String) (ov : Val)
    (priceDf : Option Table)
    (h1 : nonemptyCols df = true)
    (h2 : (priceDf.map nonemptyCols).getD true = true) :
    (valuationAnalyzeE df).isOk = true ∧
    (marketAnalyzeE rootQ df ov priceDf).isOk = true ∧
    (engineAnalyzeE rootQ df ticker ov priceDf).isOk = true ∧
    (valuationAnalyzeE {}).map (fun r => (r.fair_value, r.valuation_confidence))
      = .ok (none, 0) ∧
    (qualityAnalyze rootQ {}).quality_score = none ∧
    (qualityAnalyze rootQ {}).quality_confidence = some 0 :=
  ⟨valuationAnalyzeE_ok h1, marketAnalyzeE_ok rootQ ov h1 h2,
   engineAnalyzeE_ok rootQ ticker ov h1 h2, rfl, rfl, rfl⟩

/-- C2 witness: the amended theorem applied to two concrete tables with
non-empty present columns. -/
theorem no_raise_witness :
    (valuationAnalyzeE capGrowthTable).isOk = true ∧
    (marketAnalyzeE (fun _ x => x) twoDimTable none none).isOk = true := by
  have ha := no_raise (fun _ x => x) capGrowthTable "" none none (by decide) (by decide)
  have hb := no_raise (fun _ x => x) twoDimTable "" none none (by decide) (by decide)
  exact ⟨ha.1, hb.2.1⟩

/-- C6. Valuation undefined-propagation: whenever the computed discount
rate is at most the computed growth rate, the base-case DCF and
owner-earnings per-share values are both absent, and the aggregated fair
value then derives only from the multiples model — when the multiples
value is present, the reported fair value is exactly that value (rounded
to two decimals) and the valuation confidence is exactly 1/3. -/
theorem valuation_undefined_propagation (df : Table) (g r : ℚ)
    (hg : growthRateE df = .ok (some g)) (hr : discountRateE df = .ok r)
    (hrg : r ≤ g) :
    dcfPerShareBaseE df = .ok none ∧
    buffettPerShareBaseE df = .ok none ∧
    (∀ m res, multiplesValueE df 15 = .ok (some m) →
      valuationAnalyzeE df = .ok res →
      res.fair_value = some (round2 m) ∧ res.valuation_confidence = 1/3) := by
  have hleV : leV (some r) g = true := by simp [leV, hrg]
  have hdtc : ∀ tg : ℚ, dcfValueCore (normalizedFcf df) (some g) (some r) tg = .ok none := by
    intro tg
    cases hnf : normalizedFcf df with
    | none => rfl
    | some f0 =>
      simp only [dcfValueCore, if_pos hleV]
      rfl
  have hbtc : buffettValueCore (normalizedFcf df) (some g) (some r) = .ok none := by
    cases hnf : normalizedFcf df with
    | none => rfl
    | some f0 =>
      simp only [buffettValueCore, if_pos hleV]
      rfl
  have hdt : dcfValueE df none none (2/100) = .ok none := by
    simp only [dcfValueE, hg, bind_ok_eq, hr, Except.map, hdtc]
  have hbt : buffettValueE df none none = .ok none := by
    simp only [buffettValueE, hg, bind_ok_eq, hr, Except.map, hbtc]
  refine ⟨?_, ?_, ?_⟩
  · simp only [dcfPerShareBaseE, hdt, bind_ok_eq, equityFromEnterprise_none, toPerShare_none]
    rfl
  · simp only [buffettPerShareBaseE, hbt, bind_ok_eq, equityFromEnterprise_none, toPerShare_none]
    rfl
  · intro m res hm hres
    obtain ⟨ps, hps⟩ : ∃ ps, scenarioParamsE df = .ok ps := by
      apply exists_ok_of_eq
      simp only [scenarioParamsE, hg, bind_ok_eq, hr]
      rfl
    simp only [valuationAnalyzeE, hps, bind_ok_eq, hdt, hbt, hm,
      equityFromEnterprise_none, toPerShare_none] at hres
    cases hs1 : scenarioRunE df ps.1 with
    | error e =>
      rw [hs1, bind_error_eq] at hres
      exact absurd hres (by simp)
    | ok s1 =>
      rw [hs1, bind_ok_eq] at hres
      cases hs2 : scenarioRunE df ps.2.1 with
      | error e =>
        rw [hs2, bind_error_eq] at hres
        exact absurd hres (by simp)
      | ok s2 =>
        rw [hs2, bind_ok_eq] at hres
        cases hs3 : scenarioRunE df ps.2.2 with
        | error e =>
          rw [hs3, bind_error_eq] at hres
          exact absurd hres (by simp)
        | ok s3 =>
          rw [hs3, bind_ok_eq] at hres
          obtain rfl := Except.ok.inj hres
          constructor
          · show ((safeScore [none, none, some m]).1.map round2) = some (round2 m)
            norm_num [safeScore, meanL, List.filterMap]
          · show (safeScore [none, none, some m]).2 = 1/3
            norm_num [safeScore, List.filterMap]

/-- C6 witness: on the concrete table the growth rate clips to 0.10, the
discount rate falls back to 0.10 (so `r ≤ g`), the base DCF and
owner-earnings values are absent, and the reported fair value is the
multiples value 75 with confidence 1/3. -/
theorem valuation_undefined_propagation_witness :
    growthRateE capGrowthTable = .ok (some (1/10)) ∧
    discountRateE capGrowthTable = .ok (1/10) ∧
    dcfPerShareBaseE capGrowthTable = .ok none ∧
    buffettPerShareBaseE capGrowthTable = .ok none ∧
    (valuationAnalyzeE capGrowthTable).map
      (fun res => (res.fair_value, res.valuation_confidence)) = .ok (some 75, 1/3) := by
  have hg : growthRateE capGrowthTable = .ok (some (1/10)) := by
    simp only [growthRateE, capGrowthTable, lastIfPresent, ilocLastE, Except.map,
      bind_ok_eq]
    norm_num [cagrCandidates, meanL, clip, bind_ok_eq, pure_eq_ok]
  have hr : discountRateE capGrowthTable = .ok (1/10) := rfl
  have hm : multiplesValueE capGrowthTable 15 = .ok (some 75) := by
    simp only [multiplesValueE, capGrowthTable, ilocLastE, bind_ok_eq]
    norm_num [leV, divV, Option.isNone, bind_ok_eq, pure_eq_ok]
  have h := valuation_undefined_propagation capGrowthTable (1/10) (1/10) hg hr le_rfl
  obtain ⟨res, hres⟩ := eq_ok_of_isOk (valuationAnalyzeE_ok
    (show nonemptyCols capGrowthTable = true by decide))
  obtain ⟨hf, hc⟩ := h.2.2 75 res hm hres
  refine ⟨hg, hr, h.1, h.2.1, ?_⟩
  rw [hres, Except.map]
  rw [hf, hc]
  norm_num [round2, roundHalfEven]

/-- C8. Determinism / idempotence: the engine is a pure function of the
feature table, ticker, current-price override and price series, so two
successive runs yield identical output structures. -/
theorem engine_idempotent (rootQ : ℕ → ℚ → ℚ) (df : Table) (ticker : String)
    (ov : Val) (priceDf : Option Table) :
    (engineAnalyzeE rootQ df ticker ov priceDf,
     engineAnalyzeE rootQ df ticker ov priceDf).1 =
    (engineAnalyzeE rootQ df ticker ov priceDf,
     engineAnalyzeE rootQ df ticker ov priceDf).2 := rfl

/-- C9. Read-only input table: each scoring component leaves the table
exactly as it found it, and running Quality, Valuation and Market in any
order yields, for every component, the result of running it alone on the
original table — so the results are order-independent. -/
theorem read_only_table (rootQ : ℕ → ℚ → ℚ) (ov : Val) (priceDf : Option Table)
    (order : List Component) (df : Table) :
    (runSeq rootQ ov priceDf order df).1 = df ∧
    (runSeq rootQ ov priceDf order df).2 =
      order.map (fun c => (runComponent rootQ ov priceDf c df).2) := by
  induction order with
  | nil => exact ⟨rfl, rfl⟩
  | cons c cs ih =>
    have hc : (runComponent rootQ ov priceDf c df).1 = df := by
      cases c <;> rfl
    simp only [runSeq, hc, List.map_cons]
    exact ⟨ih.1, by rw [ih.2]⟩

end StockAnalyst
